import Mathlib

/-!
Shallow embedding of the obc-ingestion-core dependency-injection core:
the service container (`obc_ingestion_core/core/service_collection.py`),
the engine (`obc_ingestion_core/core/engine.py`), the service scope
(`openbiocure_corelib/core/service_scope.py`), the startup-task pipeline
(`openbiocure_corelib/core/startup_task.py`,
`openbiocure_corelib/core/startup_task_executor.py`) and the type finder
(`openbiocure_corelib/core/type_finder.py`).

Python object identity is modelled by an allocation counter threaded through
every operation that can construct an object: creating an instance consumes
the current counter value as the new object's identity.
-/

namespace ObcIngestion

/-- A Python runtime value, as far as the container logic observes it:
`pyNone` is Python's `None`; `obj i` is a non-callable instance whose identity
is `i`; `cls t` is a class object (callable, `isinstance(·, type)` holds;
calling it instantiates a fresh object); the `fn…` constructors are callables
that are not types (`callable(x) and not isinstance(x, type)`):
`fnFresh` allocates and returns a fresh instance on every call (a zero-argument
factory such as `lambda: C()`), `fnConst v` returns the fixed value `v` with no
allocation, and `fnAllocConst v` allocates an object as a side effect but
returns the fixed value `v` (e.g. `lambda: (C(), None)[1]`). -/
inductive PyVal : Type where
  | pyNone : PyVal
  | obj : Nat → PyVal
  | cls : Nat → PyVal
  | fnFresh : PyVal
  | fnConst : PyVal → PyVal
  | fnAllocConst : PyVal → PyVal
deriving DecidableEq, Repr

/-- Python's `callable(x)`: class objects and function-like values. -/
def PyVal.callable : PyVal → Bool
  | .cls _ => true
  | .fnFresh => true
  | .fnConst _ => true
  | .fnAllocConst _ => true
  | _ => false

/-- Python's `isinstance(x, type)`. -/
def PyVal.isType : PyVal → Bool
  | .cls _ => true
  | _ => false

/-- Invoke a callable with no arguments, threading the allocation counter.
Instantiating a class or running a fresh factory returns a new object whose
identity is the current counter.  Calling a non-callable would raise
`TypeError` in Python; every call site below is guarded by `callable`, so the
junk result for those cases is unreachable. -/
def PyVal.call : PyVal → Nat → PyVal × Nat
  | .cls _, a => (.obj a, a + 1)
  | .fnFresh, a => (.obj a, a + 1)
  | .fnConst v, a => (v, a)
  | .fnAllocConst v, a => (v, a + 1)
  | _, a => (.pyNone, a)

/-- Registration keys: a service type is identified by identity, modelled as
a natural number. -/
abbrev SvcKey := Nat

/-- A Python `dict` keyed by service types, as a function map. -/
abbrev SvcMap := SvcKey → Option PyVal

/-- Write one key of a service map (`d[k] = v`). -/
def SvcMap.set (m : SvcMap) (k : SvcKey) (v : PyVal) : SvcMap :=
  fun x => if x = k then some v else m x

/-- The empty `dict`. -/
def SvcMap.empty : SvcMap := fun _ => none

/-- Python's `d.get(k)`: `None` both when the key is absent and when the
stored value is `None`. -/
def SvcMap.get (m : SvcMap) (k : SvcKey) : PyVal :=
  (m k).getD .pyNone

/-- State of `ServiceCollection` (`service_collection.py`): the singleton
table `_services` plus the scoped and transient factory tables. -/
structure ServiceCollection where
  services : SvcMap
  scoped_factories : SvcMap
  transient_factories : SvcMap

/-- A `ServiceCollection()` fresh from `__init__`: three empty dicts. -/
def ServiceCollection.empty : ServiceCollection :=
  ⟨SvcMap.empty, SvcMap.empty, SvcMap.empty⟩

/-- `ServiceCollection.add_singleton`: a callable non-type implementation is
invoked immediately and its result stored; a type is instantiated with no
arguments and the instance stored; anything else is stored as-is. -/
def ServiceCollection.add_singleton (sc : ServiceCollection) (k : SvcKey)
    (impl : PyVal) (a : Nat) : ServiceCollection × Nat :=
  if impl.callable && !impl.isType then
    let r := impl.call a
    ({ sc with services := sc.services.set k r.1 }, r.2)
  else if impl.isType then
    let r := impl.call a
    ({ sc with services := sc.services.set k r.1 }, r.2)
  else
    ({ sc with services := sc.services.set k impl }, a)

/-- `ServiceCollection.add_scoped`: store the factory without invoking it
(the source's `isinstance` branch assigns the same value on both arms). -/
def ServiceCollection.add_scoped (sc : ServiceCollection) (k : SvcKey)
    (factory : PyVal) : ServiceCollection :=
  { sc with scoped_factories := sc.scoped_factories.set k factory }

/-- `ServiceCollection.add_transient`: store the factory without invoking it. -/
def ServiceCollection.add_transient (sc : ServiceCollection) (k : SvcKey)
    (factory : PyVal) : ServiceCollection :=
  { sc with transient_factories := sc.transient_factories.set k factory }

/-- Errors surfaced by resolution: `RuntimeError("Engine not started…")`,
`ValueError("No registration found…")`, and
`ValueError("… is scoped and requires a ServiceScope")`. -/
inductive ResolveError : Type where
  | notStarted : ResolveError
  | notRegistered : ResolveError
  | scopedRequiresScope : ResolveError
deriving DecidableEq, Repr

/-- `ServiceCollection.get_service`: look up the singleton table first; a
stored value that is callable and not a type is invoked on every lookup; a
stored (or absent) `None` falls through to the scoped table, which raises,
then to the transient table, which invokes its factory; otherwise the
absence marker `None` is returned. -/
def ServiceCollection.get_service (sc : ServiceCollection) (k : SvcKey)
    (a : Nat) : Except ResolveError (PyVal × Nat) :=
  let service := sc.services.get k
  if service ≠ .pyNone then
    if service.callable && !service.isType then .ok (service.call a)
    else .ok (service, a)
  else if (sc.scoped_factories k).isSome then
    .error .scopedRequiresScope
  else
    match sc.transient_factories k with
    | some factory => .ok (factory.call a)
    | none => .ok (.pyNone, a)

/-- The `enabled` entry of one task's configuration section: `none` models a
dict with no `"enabled"` key, `some b` models `{"enabled": b}` (already taken
through Python's `bool(...)`). -/
structure TaskConfig where
  enabledKey : Option Bool
deriving DecidableEq, Repr

/-- State and behaviour of one `StartupTask` instance
(`openbiocure_corelib/core/startup_task.py`).  `name` is the concrete class
name; `order` and `enabled` are the values plain attribute lookup finds for
`task.order` / `task.enabled` (the class-level attributes, since instances
never shadow them); `isEnabled` is the instance attribute `_is_enabled`
(initialised by `__init__` to the class-level `enabled`); `cfg` is the stored
`_config`.  `execute()` is modelled by its observable behaviour: it appends
`events` to a shared log and then either returns (`raises = none`) or raises
the exception identified by `raises = some e`. -/
structure StartupTask where
  name : String
  order : Int
  enabled : Bool
  isEnabled : Bool
  cfg : TaskConfig
  events : List String
  raises : Option Nat
deriving DecidableEq, Repr

/-- `StartupTask.configure`: store the config and, when the config has an
explicit `"enabled"` key, overwrite `_is_enabled` with it.  The class-level
`enabled` attribute is not touched. -/
def StartupTask.configure (t : StartupTask) (c : TaskConfig) : StartupTask :=
  { t with
    cfg := c
    isEnabled := match c.enabledKey with
      | some b => b
      | none => t.isEnabled }

/-- An insertion-ordered Python dict from task name to task, as the assoc
list of its entries. -/
abbrev TaskDict := List (String × StartupTask)

/-- Python dict assignment `d[k] = v`: replace in place when the key exists
(keeping its original insertion position), append otherwise. -/
def TaskDict.set (d : TaskDict) (k : String) (v : StartupTask) : TaskDict :=
  if d.any (fun p => p.1 = k) then
    d.map (fun p => if p.1 = k then (k, v) else p)
  else
    d ++ [(k, v)]

/-- State of `StartupTaskExecutor`: the `_tasks` dict. -/
structure StartupTaskExecutor where
  tasks : TaskDict

/-- A `StartupTaskExecutor()` fresh from `__init__`. -/
def StartupTaskExecutor.empty : StartupTaskExecutor := ⟨[]⟩

/-- `StartupTaskExecutor.add_task`: `self._tasks[task.name] = task`. -/
def StartupTaskExecutor.add_task (ex : StartupTaskExecutor)
    (t : StartupTask) : StartupTaskExecutor :=
  ⟨ex.tasks.set t.name t⟩

/-- The `startup_tasks` section of the overall configuration: a dict from
task name to that task's configuration section. -/
structure Config where
  startup_tasks : List (String × TaskConfig)
deriving DecidableEq, Repr

/-- `StartupTaskExecutor.configure_tasks`: for every registered task, look up
its section by name (defaulting to the empty dict) and `configure` it. -/
def StartupTaskExecutor.configure_tasks (ex : StartupTaskExecutor)
    (config : Config) : StartupTaskExecutor :=
  ⟨ex.tasks.map (fun p =>
    (p.1, p.2.configure ((config.startup_tasks.lookup p.1).getD ⟨none⟩)))⟩

/-- Insert a task into an already-sorted list, after every element whose
`order` is `≤` its own: the stable insertion step. -/
def insertByOrder (t : StartupTask) : List StartupTask → List StartupTask
  | [] => [t]
  | u :: us => if u.order ≤ t.order then u :: insertByOrder t us else t :: u :: us

/-- Python's stable `sorted(·, key=lambda t: t.order)`. -/
def sortByOrder (l : List StartupTask) : List StartupTask :=
  l.foldl (fun acc t => insertByOrder t acc) []

/-- Await each task's `execute()` in turn: the task's events are appended to
the log; a raising task stops the loop at once and propagates its error, so
no later task runs. -/
def runTasks : List StartupTask → List String → List String × Option Nat
  | [], log => (log, none)
  | t :: ts, log =>
    let log2 := log ++ t.events
    match t.raises with
    | some e => (log2, some e)
    | none => runTasks ts log2

/-- The list `execute_all_async` iterates: the values of `_tasks` filtered by
the attribute lookup `task.enabled` — the class-level flag, not the
configured `_is_enabled` — then stably sorted by `t.order`. -/
def StartupTaskExecutor.sortedEnabled (ex : StartupTaskExecutor) :
    List StartupTask :=
  sortByOrder ((ex.tasks.map Prod.snd).filter (fun t => t.enabled))

/-- `StartupTaskExecutor.execute_all_async`: await each filtered, sorted
task's `execute()` strictly in sequence, failing fast on the first raise. -/
def StartupTaskExecutor.execute_all_async (ex : StartupTaskExecutor)
    (log : List String) : List String × Option Nat :=
  runTasks ex.sortedEnabled log

/-- One pending entry of the engine's `_repository_registrations`: the
discovered repository class and its bound entity type, both by identity. -/
structure RepoInfo where
  repo_class : Nat
  entity_type : Nat
deriving DecidableEq, Repr

/-- State of the `Engine` (`obc_ingestion_core/core/engine.py`) as far as the
container claims observe it: its `ServiceCollection`, the `_started` flag,
the pending `_repository_registrations`, the executor built by `start()`, and
the shared event log written by startup tasks. -/
structure Engine where
  services : ServiceCollection
  started : Bool
  repository_registrations : List (SvcKey × RepoInfo)
  executor : Option StartupTaskExecutor
  trace : List String

/-- An `Engine()` fresh from `__init__`: empty container, not started. -/
def Engine.fresh : Engine :=
  ⟨ServiceCollection.empty, false, [], none, []⟩

/-- `Engine._complete_repository_registrations`: for every pending
registration, store the closure `lambda: self._create_repository_instance(rc,
et)` directly into the singleton table `_services._services` — a zero-argument
factory (callable, not a type) that builds a fresh repository instance on
every invocation, modelled by `fnFresh`. -/
def Engine.complete_repository_registrations (sc : ServiceCollection)
    (regs : List (SvcKey × RepoInfo)) : ServiceCollection :=
  regs.foldl
    (fun s p => { s with services := s.services.set p.1 .fnFresh }) sc

/-- Run a sequence of `add_singleton` registrations in order. -/
def regAll : List (SvcKey × PyVal) → ServiceCollection × Nat →
    ServiceCollection × Nat
  | [], st => st
  | (k, v) :: rest, (sc, a) => regAll rest (sc.add_singleton k v a)

/-- `Engine.start`.  A second call on a started engine returns at once.
Otherwise: register core services (`_register_core_services`, whose concrete
registrations depend on the runtime environment and enter here as the `core`
list of `add_singleton` calls), complete the pending repository
registrations, set `_started = True` before tasks run, build the executor
from the `StartupTask` classes the type finder discovered (the `discovered`
list, one instance each), configure them when the configuration loads
(`config = none` models `AppConfig.get_instance()` raising, which is caught
and only logged), and await `execute_all_async()`.  If the pipeline raises,
the engine flips `_started` back to `False` and re-raises the same error.
`buildExecutor` is the pipeline-construction phase of `start`: one
`add_task` per discovered class's instance, then `configure_tasks` when the
configuration is available. -/
def buildExecutor (discovered : List StartupTask) (config : Option Config) :
    StartupTaskExecutor :=
  let ex0 := discovered.foldl (fun x t => x.add_task t)
    StartupTaskExecutor.empty
  match config with
  | some c => ex0.configure_tasks c
  | none => ex0

/-- Main body of `Engine.start`; the doc comment on `buildExecutor` above
describes the whole sequence. -/
def Engine.start (e : Engine) (core : List (SvcKey × PyVal))
    (discovered : List StartupTask) (config : Option Config) (a : Nat) :
    Engine × Nat × Option Nat :=
  if e.started then (e, a, none)
  else
    let r := regAll core (e.services, a)
    let sc := Engine.complete_repository_registrations r.1
      e.repository_registrations
    let e1 := { e with services := sc, started := true }
    let ex := buildExecutor discovered config
    let e2 := { e1 with executor := some ex }
    match ex.execute_all_async e2.trace with
    | (log, some err) =>
      ({ e2 with trace := log, started := false }, r.2, some err)
    | (log, none) => ({ e2 with trace := log }, r.2, none)

/-- `Engine.resolve`: raise `RuntimeError` when not started, otherwise
delegate to `get_service` and raise `ValueError` on the absence marker. -/
def Engine.resolve (e : Engine) (k : SvcKey) (a : Nat) :
    Except ResolveError (PyVal × Nat) :=
  if !e.started then .error .notStarted
  else
    match e.services.get_service k a with
    | .error er => .error er
    | .ok (v, a2) => if v = .pyNone then .error .notRegistered else .ok (v, a2)

/-- `Engine.register`: always a singleton registration. -/
def Engine.register (e : Engine) (k : SvcKey) (impl : PyVal) (a : Nat) :
    Engine × Nat :=
  let r := e.services.add_singleton k impl a
  ({ e with services := r.1 }, r.2)

/-- Warnings `Engine.stop` logs for a teardown step that raised. -/
inductive StopEvent : Type where
  | dbCloseFailed : StopEvent
  | executorCleanupFailed : StopEvent
deriving DecidableEq, Repr

/-- `Engine.stop`.  A stop on a non-started engine returns at once.
Otherwise close the database context and run the executor's `cleanup()`, each
inside its own `try/except` that logs and continues (`dbCloseRaises` and
`cleanupRaises` model whether those awaited calls raise); then clear the
three container tables, flip `_started` to `False` and clear the cached
repository registrations.  The trailing state-clearing assignments cannot
raise, so the outer `except`'s re-raise path is unreachable and `stop`
always returns normally. -/
def Engine.stop (e : Engine) (dbCloseRaises : Bool) (cleanupRaises : Bool) :
    Engine × List StopEvent :=
  if !e.started then (e, [])
  else
    let warnings1 : List StopEvent :=
      if dbCloseRaises then [.dbCloseFailed] else []
    let warnings2 : List StopEvent :=
      if e.executor.isSome && cleanupRaises then [.executorCleanupFailed]
      else []
    ({ e with
        services := ServiceCollection.empty
        started := false
        repository_registrations := [] },
      warnings1 ++ warnings2)

/-- State of a `ServiceScope` (`service_scope.py`): the `_scoped_services`
cache. -/
structure ServiceScope where
  scoped_services : SvcMap

/-- `Engine.create_scope`: `ServiceScope(self)` with an empty cache. -/
def ServiceScope.fresh : ServiceScope := ⟨SvcMap.empty⟩

/-- `ServiceScope.resolve`: return the cached instance when
`_scoped_services.get(type_)` is not `None`; else when the owning engine's
scoped-factory table holds a non-`None` factory, invoke it (both arms of the
source's `isinstance` test call it the same way), cache and return the
result; else delegate to `Engine.resolve`. -/
def ServiceScope.resolve (s : ServiceScope) (e : Engine) (k : SvcKey)
    (a : Nat) : Except ResolveError (PyVal × ServiceScope × Nat) :=
  let service := s.scoped_services.get k
  if service ≠ .pyNone then .ok (service, s, a)
  else
    let factory := e.services.scoped_factories.get k
    if factory ≠ .pyNone then
      let r := factory.call a
      .ok (r.1, ⟨s.scoped_services.set k r.1⟩, r.2)
    else
      match e.resolve k a with
      | .error er => .error er
      | .ok (v, a2) => .ok (v, s, a2)

/-- One entry of a class's `__orig_bases__` (`type_finder.py`): whether the
base has an `__origin__`, which generic interface that origin is (by
identity), whether it has `__args__`, and the bound type arguments (type
identities). -/
structure GenBase where
  hasOrigin : Bool
  originId : Nat
  hasArgs : Bool
  args : List Nat
deriving DecidableEq, Repr

/-- A class object as the type finder observes it.  `cid` is the class's
identity (the same class reached through two modules has the same `cid`);
`modName` is `class_obj.__module__`; `assignable` and `assignRaises` model
the outcome of `_is_assignable_to(class_obj, target)` for the call's fixed
target type — its value, or the fact that it raises; `isAbstract` is
`inspect.isabstract`, `abcBase` is `ABC in class_obj.__bases__`;
`origBases = none` models a class with no `__orig_bases__` attribute. -/
structure Cls where
  cid : Nat
  modName : String
  assignable : Bool
  assignRaises : Bool
  isAbstract : Bool
  abcBase : Bool
  origBases : Option (List GenBase)
deriving DecidableEq, Repr

/-- A loaded module: `introspectRaises` models `inspect.getmembers(module)`
raising for this module; `members` is the class list `getmembers` would
return. -/
structure PyModule where
  name : String
  introspectRaises : Bool
  members : List Cls
deriving DecidableEq, Repr

/-- State of a `TypeFinder`: the ignore list and the `_loaded_modules`
index (dict values in insertion order). -/
structure TypeFinder where
  ignore_modules : List String
  loaded_modules : List PyModule

/-- `inspect.getmembers(module, inspect.isclass)`, which may raise. -/
def PyModule.getmembers (m : PyModule) : Except Unit (List Cls) :=
  if m.introspectRaises then .error () else .ok m.members

/-- `self._is_assignable_to(class_obj, target)`, which may raise. -/
def Cls.assignCheck (c : Cls) : Except Unit Bool :=
  if c.assignRaises then .error () else .ok c.assignable

/-- The skip test `any(class_obj.__module__.startswith(m) for m in
self._ignore_modules)`. -/
def ignoredCls (ign : List String) (c : Cls) : Bool :=
  ign.any (fun p => c.modName.startsWith p)

/-- Process one candidate class of `find_classes_of_type`: state is the
`discovered_types` identity set paired with the `result` list.  A class seen
before is skipped; otherwise it is recorded as discovered first, then
filtered by ignored module, by the (possibly raising) assignability check —
a raise skips just this candidate — and by the abstract-class test. -/
def fcStep (ign : List String) (oc : Bool) (st : List Nat × List Cls)
    (c : Cls) : List Nat × List Cls :=
  if c.cid ∈ st.1 then st
  else
    let disc := c.cid :: st.1
    if ignoredCls ign c then (disc, st.2)
    else
      match c.assignCheck with
      | .error _ => (disc, st.2)
      | .ok isAssignable =>
        if isAssignable then
          if oc && (c.isAbstract || c.abcBase) then (disc, st.2)
          else (disc, st.2 ++ [c])
        else (disc, st.2)

/-- Process one module of `find_classes_of_type`: a raise from `getmembers`
is caught by the per-module `except`, which logs and moves to the next
module, leaving the state untouched. -/
def fcModule (ign : List String) (oc : Bool) (st : List Nat × List Cls)
    (m : PyModule) : List Nat × List Cls :=
  match m.getmembers with
  | .error _ => st
  | .ok cs => cs.foldl (fcStep ign oc) st

/-- `TypeFinder.find_classes_of_type`: scan every cached module in order
with a fresh `discovered_types` set and return the accumulated result. -/
def TypeFinder.find_classes_of_type (tf : TypeFinder) (oc : Bool) :
    List Cls :=
  (tf.loaded_modules.foldl (fcModule tf.ignore_modules oc) ([], [])).2

/-- Walk a class's `__orig_bases__` in order looking for a base whose
`__origin__` is the requested generic interface and that has `__args__`;
when an `arg_types` filter is supplied, a matching base whose arguments do
not contain all requested types is passed over (`continue`) and the walk
goes on; the first base that survives yields its argument list (`break`). -/
def scanBases (g : Nat) (argTypes : Option (List Nat)) :
    List GenBase → Option (List Nat)
  | [] => none
  | b :: bs =>
    if b.hasOrigin && b.originId == g && b.hasArgs then
      match argTypes with
      | some l =>
        if l.all (fun x => b.args.contains x) then some b.args
        else scanBases g argTypes bs
      | none => some b.args
    else scanBases g argTypes bs

/-- Process one candidate class of `find_generic_implementations`: dedup by
identity first, then the ignored-module skip, then the `__orig_bases__`
walk; a surviving base appends `(class, args)` once. -/
def fgStep (ign : List String) (g : Nat) (argTypes : Option (List Nat))
    (st : List Nat × List (Cls × List Nat)) (c : Cls) :
    List Nat × List (Cls × List Nat) :=
  if c.cid ∈ st.1 then st
  else
    let disc := c.cid :: st.1
    if ignoredCls ign c then (disc, st.2)
    else
      match c.origBases with
      | none => (disc, st.2)
      | some bases =>
        match scanBases g argTypes bases with
        | some args => (disc, st.2 ++ [(c, args)])
        | none => (disc, st.2)

/-- Process one module of `find_generic_implementations`, with the same
per-module `except` as the class scan. -/
def fgModule (ign : List String) (g : Nat) (argTypes : Option (List Nat))
    (st : List Nat × List (Cls × List Nat)) (m : PyModule) :
    List Nat × List (Cls × List Nat) :=
  match m.getmembers with
  | .error _ => st
  | .ok cs => cs.foldl (fgStep ign g argTypes) st

/-- `TypeFinder.find_generic_implementations`: scan every cached module in
order and return each implementation paired with its bound type-argument
identities. -/
def TypeFinder.find_generic_implementations (tf : TypeFinder) (g : Nat)
    (argTypes : Option (List Nat)) : List (Cls × List Nat) :=
  (tf.loaded_modules.foldl (fgModule tf.ignore_modules g argTypes)
    ([], [])).2

/-! Helper lemmas about the container. -/

theorem callable_ne_pyNone {v : PyVal} (h : v.callable = true) :
    v ≠ .pyNone := by
  cases v <;> simp_all [PyVal.callable]

theorem get_service_stored_callable (sc : ServiceCollection) (k : SvcKey)
    (a : Nat) (v : PyVal) (h : sc.services k = some v) (hc : v.callable = true)
    (ht : v.isType = false) : sc.get_service k a = .ok (v.call a) := by
  have hne : v ≠ .pyNone := callable_ne_pyNone hc
  simp [ServiceCollection.get_service, SvcMap.get, h, hne, hc, ht]

theorem get_service_stored_plain (sc : ServiceCollection) (k : SvcKey)
    (a : Nat) (v : PyVal) (h : sc.services k = some v) (hne : v ≠ .pyNone)
    (hcb : (v.callable && !v.isType) = false) :
    sc.get_service k a = .ok (v, a) := by
  simp [ServiceCollection.get_service, SvcMap.get, h, hne, hcb]

/-- The value `add_singleton` leaves in the singleton table, as §4.1 of the
spec describes it: invocation result for a callable non-type, no-argument
instantiation for a type, the implementation itself otherwise. -/
def singletonStored (impl : PyVal) (a : Nat) : PyVal :=
  if impl.callable && !impl.isType then (impl.call a).1
  else if impl.isType then (impl.call a).1
  else impl

theorem add_singleton_services_self (sc : ServiceCollection) (k : SvcKey)
    (impl : PyVal) (a : Nat) :
    (sc.add_singleton k impl a).1.services k = some (singletonStored impl a) := by
  by_cases h1 : (impl.callable && !impl.isType) = true
  · simp [ServiceCollection.add_singleton, singletonStored, h1, SvcMap.set]
  · by_cases h2 : impl.isType = true
    · simp [ServiceCollection.add_singleton, singletonStored, h1, h2, SvcMap.set]
    · have h3 : ¬ impl.callable = true := by
        intro hc
        exact h1 (by simp [hc, Bool.not_eq_true] at h2 ⊢; simp [h2])
      simp [ServiceCollection.add_singleton, singletonStored, h1, h2, h3,
        SvcMap.set]

theorem add_singleton_services_other (sc : ServiceCollection) (k k2 : SvcKey)
    (impl : PyVal) (a : Nat) (h : k2 ≠ k) :
    (sc.add_singleton k impl a).1.services k2 = sc.services k2 := by
  by_cases h1 : (impl.callable && !impl.isType) = true
  · simp [ServiceCollection.add_singleton, h1, SvcMap.set, h]
  · by_cases h2 : impl.isType = true
    · simp [ServiceCollection.add_singleton, h1, h2, SvcMap.set, h]
    · have h3 : ¬ impl.callable = true := by
        intro hc
        exact h1 (by simp [hc, Bool.not_eq_true] at h2 ⊢; simp [h2])
      simp [ServiceCollection.add_singleton, h1, h2, h3, SvcMap.set, h]

/-- The value the last `add_singleton` call of a registration sequence
supplied for a key, `none` when the sequence never touches the key. -/
def lastRegOf : List (SvcKey × PyVal) → SvcKey → Option PyVal
  | [], _ => none
  | p :: rest, k =>
    match lastRegOf rest k with
    | some v => some v
    | none => if p.1 = k then some p.2 else none

theorem regAll_services (regs : List (SvcKey × PyVal)) :
    ∀ (sc : ServiceCollection) (a : Nat) (k : SvcKey),
      (lastRegOf regs k = none →
        (regAll regs (sc, a)).1.services k = sc.services k)
      ∧ (∀ impl, lastRegOf regs k = some impl →
        ∃ a2, (regAll regs (sc, a)).1.services k = some (singletonStored impl a2)) := by
  induction regs with
  | nil => intro sc a k; exact ⟨fun _ => rfl, fun impl h => by simp [lastRegOf] at h⟩
  | cons p rest ih =>
    intro sc a k
    obtain ⟨k0, v0⟩ := p
    have hstep : regAll ((k0, v0) :: rest) (sc, a)
        = regAll rest (sc.add_singleton k0 v0 a) := rfl
    constructor
    · intro hnone
      cases hrest : lastRegOf rest k with
      | some v => simp [lastRegOf, hrest] at hnone
      | none =>
        have hne : ¬ k0 = k := by
          intro he
          simp [lastRegOf, hrest, he] at hnone
        have h1 := (ih (sc.add_singleton k0 v0 a).1
          (sc.add_singleton k0 v0 a).2 k).1 hrest
        rw [hstep]
        exact h1.trans
          (add_singleton_services_other sc k0 k v0 a (fun he => hne he.symm))
    · intro impl hsome
      cases hrest : lastRegOf rest k with
      | some v =>
        have hv : v = impl := by
          simp [lastRegOf, hrest] at hsome
          exact hsome
        obtain ⟨a2, h2⟩ := (ih (sc.add_singleton k0 v0 a).1
          (sc.add_singleton k0 v0 a).2 k).2 impl (by rw [hrest, hv])
        rw [hstep]
        exact ⟨a2, h2⟩
      | none =>
        have hsome2 : (if k0 = k then some v0 else none) = some impl := by
          simpa [lastRegOf, hrest] using hsome
        by_cases he : k0 = k
        · have hv : v0 = impl := by simpa [he] using hsome2
          have h1 := (ih (sc.add_singleton k0 v0 a).1
            (sc.add_singleton k0 v0 a).2 k).1 hrest
          rw [hstep]
          refine ⟨a, h1.trans ?_⟩
          rw [← he, ← hv]
          exact add_singleton_services_self sc k0 v0 a
        · simp [he] at hsome2

theorem crr_services (regs : List (SvcKey × RepoInfo)) :
    ∀ (sc : ServiceCollection) (k : SvcKey),
      (Engine.complete_repository_registrations sc regs).services k
        = if k ∈ regs.map Prod.fst then some .fnFresh else sc.services k := by
  induction regs with
  | nil => intro sc k; simp [Engine.complete_repository_registrations]
  | cons p rest ih =>
    intro sc k
    have hstep : Engine.complete_repository_registrations sc (p :: rest)
        = Engine.complete_repository_registrations
            { sc with services := sc.services.set p.1 .fnFresh } rest := by
      simp [Engine.complete_repository_registrations]
    rw [hstep, ih]
    by_cases hk : k ∈ rest.map Prod.fst
    · simp [hk]
    · by_cases he : k = p.1
      · simp [hk, he, SvcMap.set]
      · simp [hk, he, SvcMap.set]

/-- Claim C10: a value stored in the root container's singleton table that is
callable and not a type — as holds for every auto-discovered repository
interface, because `_complete_repository_registrations` stores a
zero-argument factory closure directly in `_services._services` — is invoked
by `get_service` on every lookup, so repeated resolutions of such a key
return distinct, freshly created instances rather than one shared
instance. -/
theorem claim_C10 (sc : ServiceCollection) (regs : List (SvcKey × RepoInfo))
    (k : SvcKey) (a : Nat) (hreg : k ∈ regs.map Prod.fst) :
    (Engine.complete_repository_registrations sc regs).services k
        = some .fnFresh
    ∧ PyVal.fnFresh.callable = true
    ∧ PyVal.fnFresh.isType = false
    ∧ (∀ (sc2 : ServiceCollection) (v : PyVal), sc2.services k = some v →
        v.callable = true → v.isType = false →
        sc2.get_service k a = .ok (v.call a))
    ∧ (∀ sc2 : ServiceCollection, sc2.services k = some PyVal.fnFresh →
        sc2.get_service k a = .ok (.obj a, a + 1)
        ∧ sc2.get_service k (a + 1) = .ok (.obj (a + 1), a + 2)
        ∧ PyVal.obj a ≠ PyVal.obj (a + 1)) := by
  refine ⟨by rw [crr_services]; simp [hreg], rfl, rfl,
    fun sc2 v h hc ht => get_service_stored_callable sc2 k a v h hc ht,
    fun sc2 h => ⟨?_, ?_, by simp⟩⟩
  · simpa using get_service_stored_callable sc2 k a .fnFresh h rfl rfl
  · simpa using get_service_stored_callable sc2 k (a + 1) .fnFresh h rfl rfl

/-- Witness for C10 at a concrete pending registration: the factory stored
for key 4 is invoked afresh on each of two consecutive lookups, yielding
distinct instances. -/
theorem claim_C10_witness :
    (Engine.complete_repository_registrations ServiceCollection.empty
      [(4, ⟨1, 2⟩)]).services 4 = some .fnFresh
    ∧ PyVal.fnFresh.callable = true
    ∧ PyVal.fnFresh.isType = false
    ∧ (∀ (sc2 : ServiceCollection) (v : PyVal), sc2.services 4 = some v →
        v.callable = true → v.isType = false →
        sc2.get_service 4 0 = .ok (v.call 0))
    ∧ (∀ sc2 : ServiceCollection, sc2.services 4 = some PyVal.fnFresh →
        sc2.get_service 4 0 = .ok (.obj 0, 0 + 1)
        ∧ sc2.get_service 4 (0 + 1) = .ok (.obj (0 + 1), 0 + 2)
        ∧ PyVal.obj 0 ≠ PyVal.obj (0 + 1)) :=
  claim_C10 ServiceCollection.empty [(4, ⟨1, 2⟩)] 4 0 (by simp)

/-- Counterexample to claim C5 as stated: registering the factory
`lambda: (lambda: obj0)` stores its immediate invocation result, the inner
callable; but `get_service` does not return that stored value — it invokes
it once more and returns `obj0`. -/
theorem claim_C5_counterexample :
    (PyVal.fnConst (.fnConst (.obj 0))).callable = true
    ∧ (PyVal.fnConst (.fnConst (.obj 0))).isType = false
    ∧ ((PyVal.fnConst (.fnConst (.obj 0))).call 0).1 = PyVal.fnConst (.obj 0)
    ∧ (ServiceCollection.empty.add_singleton 1
        (.fnConst (.fnConst (.obj 0))) 0).1.services 1
        = some (PyVal.fnConst (.obj 0))
    ∧ (ServiceCollection.empty.add_singleton 1
        (.fnConst (.fnConst (.obj 0))) 0).1.get_service 1 0
        = .ok (.obj 0, 0)
    ∧ PyVal.obj 0 ≠ PyVal.fnConst (.obj 0) := by
  refine ⟨rfl, rfl, rfl, by decide, rfl, by decide⟩

/-- Claim C5 as amended: after any sequence of `add_singleton` calls, the
singleton table holds for each key exactly the value determined by the last
call for that key (invocation result for a callable non-type, no-argument
instantiation for a type, the instance itself otherwise; later registrations
overwrite earlier ones with no conflict error), and `get_service` returns
that stored value — unless the stored value is itself callable and not a
type, in which case `get_service` invokes it and returns the invocation's
result instead. -/
theorem claim_C5 (regs : List (SvcKey × PyVal)) (sc : ServiceCollection)
    (a : Nat) (k : SvcKey) :
    (∀ impl, lastRegOf regs k = some impl →
      ∃ a2, (regAll regs (sc, a)).1.services k = some (singletonStored impl a2))
    ∧ (lastRegOf regs k = none →
      (regAll regs (sc, a)).1.services k = sc.services k)
    ∧ (∀ (sc2 : ServiceCollection) (v : PyVal) (a3 : Nat),
        sc2.services k = some v → v ≠ .pyNone →
        (v.callable && !v.isType) = false →
        sc2.get_service k a3 = .ok (v, a3))
    ∧ (∀ (sc2 : ServiceCollection) (v : PyVal) (a3 : Nat),
        sc2.services k = some v → v.callable = true → v.isType = false →
        sc2.get_service k a3 = .ok (v.call a3)) :=
  ⟨(regAll_services regs sc a k).2, (regAll_services regs sc a k).1,
    fun sc2 v a3 h hne hcb => get_service_stored_plain sc2 k a3 v h hne hcb,
    fun sc2 v a3 h hc ht => get_service_stored_callable sc2 k a3 v h hc ht⟩

/-- Witness for C5 at a concrete two-registration sequence on one key: the
later registration wins and `get_service` hands back the stored instance. -/
theorem claim_C5_witness :
    ∃ a2, (regAll [(1, PyVal.obj 5), (1, PyVal.obj 7)]
      (ServiceCollection.empty, 0)).1.services 1
        = some (singletonStored (PyVal.obj 7) a2) :=
  (claim_C5 [(1, .obj 5), (1, .obj 7)] ServiceCollection.empty 0 1).1
    (.obj 7) rfl

/-- Counterexample to claim C4 as stated: after a successful `start()`,
registering key 5 as a singleton with the factory `lambda: (lambda: C())`
stores a callable non-type, and two repeated `resolve` calls return two
distinct instances — not the same instance on every repeated call. -/
theorem claim_C4_counterexample :
    (Engine.fresh.start [] [] none 0).2.2 = none
    ∧ (Engine.fresh.start [] [] none 0).1.started = true
    ∧ ((Engine.fresh.start [] [] none 0).1.register 5
        (.fnConst .fnFresh) 0).1.resolve 5 0 = .ok (.obj 0, 1)
    ∧ ((Engine.fresh.start [] [] none 0).1.register 5
        (.fnConst .fnFresh) 0).1.resolve 5 1 = .ok (.obj 1, 2)
    ∧ PyVal.obj 0 ≠ PyVal.obj 1 :=
  ⟨rfl, rfl, rfl, rfl, by decide⟩

/-- Claim C4 as amended: `resolve` raises the "not started" error whenever
the engine's started flag is false; on a started engine, resolving a key
with no registration in any table raises the "not registered" error; and
resolving a key whose stored singleton value is not a callable non-type
returns that same stored instance on every repeated call — when the stored
value is callable and not a type (a deferred factory) it is instead
re-invoked on each resolution, so repeated calls may return distinct
instances. -/
theorem claim_C4 (e : Engine) (k : SvcKey) (a : Nat) :
    (e.started = false → e.resolve k a = .error .notStarted)
    ∧ (e.started = true → e.services.services k = none →
        e.services.scoped_factories k = none →
        e.services.transient_factories k = none →
        e.resolve k a = .error .notRegistered)
    ∧ (e.started = true → ∀ v, e.services.services k = some v →
        v ≠ .pyNone → (v.callable && !v.isType) = false →
        e.resolve k a = .ok (v, a))
    ∧ (e.started = true → e.services.services k = some .fnFresh →
        e.resolve k a = .ok (.obj a, a + 1)) := by
  refine ⟨fun h => by simp [Engine.resolve, h], fun h h1 h2 h3 => ?_,
    fun h v hv hne hcb => ?_, fun h hv => ?_⟩
  · simp [Engine.resolve, h, ServiceCollection.get_service, SvcMap.get,
      h1, h2, h3]
  · have hg := get_service_stored_plain e.services k a v hv hne hcb
    simp [Engine.resolve, h, hg, hne]
  · have hg := get_service_stored_callable e.services k a .fnFresh hv rfl rfl
    simp [Engine.resolve, h, hg, PyVal.call]

/-- A started engine with an empty container, for the C4 witness. -/
def c4Started : Engine := { Engine.fresh with started := true }

/-- A started engine holding one plain singleton instance under key 9, for
the C4 witness. -/
def c4WithNine : Engine :=
  { Engine.fresh with
    started := true
    services := { ServiceCollection.empty with
      services := SvcMap.empty.set 9 (.obj 3) } }

/-- Witness for C4 at concrete engines: a not-started resolve, a started
resolve of an unregistered key, and a started resolve of a stored plain
instance. -/
theorem claim_C4_witness :
    Engine.fresh.resolve 9 0 = .error .notStarted
    ∧ c4Started.resolve 9 0 = .error .notRegistered
    ∧ c4WithNine.resolve 9 5 = .ok (.obj 3, 5) :=
  ⟨(claim_C4 Engine.fresh 9 0).1 rfl,
    (claim_C4 c4Started 9 0).2.1 rfl rfl rfl rfl,
    (claim_C4 c4WithNine 9 5).2.2.1 rfl (.obj 3) (by decide) (by decide) rfl⟩

/-- Claim C9: `stop()` on a started engine is best-effort — a raise while
closing the database context or while running the executor's `cleanup()` is
logged as a warning (the returned event list) and does not prevent the
remaining teardown, and `stop` returns normally rather than re-raising; the
resulting state has all three container tables cleared, the cached
repository-registration state cleared and the started flag false; and a
second `stop` is a no-op (idempotence). -/
theorem claim_C9 (e : Engine) (db cl : Bool) (he : e.started = true) :
    (∀ k, (e.stop db cl).1.services.services k = none)
    ∧ (∀ k, (e.stop db cl).1.services.scoped_factories k = none)
    ∧ (∀ k, (e.stop db cl).1.services.transient_factories k = none)
    ∧ (e.stop db cl).1.repository_registrations = []
    ∧ (e.stop db cl).1.started = false
    ∧ (e.stop db cl).2
        = (if db then [StopEvent.dbCloseFailed] else [])
          ++ (if e.executor.isSome && cl then [StopEvent.executorCleanupFailed]
              else [])
    ∧ (∀ db2 cl2, (e.stop db cl).1.stop db2 cl2 = ((e.stop db cl).1, [])) := by
  have h1 : e.stop db cl
      = ({ e with
            services := ServiceCollection.empty
            started := false
            repository_registrations := [] },
        (if db then [StopEvent.dbCloseFailed] else [])
          ++ (if e.executor.isSome && cl then [StopEvent.executorCleanupFailed]
              else [])) := by
    simp [Engine.stop, he]
  refine ⟨fun k => by rw [h1]; rfl, fun k => by rw [h1]; rfl,
    fun k => by rw [h1]; rfl, by rw [h1], by rw [h1], by rw [h1],
    fun db2 cl2 => ?_⟩
  rw [h1]
  simp [Engine.stop]

/-- A started engine with an executor, for the C9 witness. -/
def c9Engine : Engine :=
  { Engine.fresh with
    started := true
    executor := some StartupTaskExecutor.empty }

/-- Witness for C9 at a concrete started engine with both teardown steps
raising: the engine still ends not-started with everything cleared. -/
theorem claim_C9_witness :
    ((c9Engine.stop true true).1.started = false)
    ∧ (∀ k, (c9Engine.stop true true).1.services.services k = none) :=
  ⟨(claim_C9 c9Engine true true rfl).2.2.2.2.1,
    (claim_C9 c9Engine true true rfl).1⟩

/-- Projection helpers for scope-resolution results. -/
def valOf (r : Except ResolveError (PyVal × ServiceScope × Nat)) :
    Option PyVal :=
  match r with
  | .ok (v, _, _) => some v
  | .error _ => none

/-- Allocation counter of a successful scope resolution. -/
def allocOf (r : Except ResolveError (PyVal × ServiceScope × Nat)) :
    Option Nat :=
  match r with
  | .ok (_, _, a) => some a
  | .error _ => none

/-- Scope returned by a successful scope resolution. -/
def scopeOf (r : Except ResolveError (PyVal × ServiceScope × Nat)) :
    ServiceScope :=
  match r with
  | .ok (_, s, _) => s
  | .error _ => ServiceScope.fresh

/-- A started engine with two scoped factories: key 2 holds a factory that
allocates but returns `None`, key 3 holds a factory returning one shared
pre-existing object. -/
def c6Engine : Engine :=
  { Engine.fresh with
    started := true
    services := { ServiceCollection.empty with
      scoped_factories :=
        (SvcMap.empty.set 2 (.fnAllocConst .pyNone)).set 3
          (.fnConst (.obj 7)) } }

/-- Counterexample to claim C6 as stated: a scoped factory whose result is
`None` is never cached, so within one scope it is invoked again on every
`resolve` (the allocation counter advances on both calls); and a scoped
factory returning an already-existing shared object gives two independently
created scopes the same instance, not distinct ones. -/
theorem claim_C6_counterexample :
    valOf (ServiceScope.fresh.resolve c6Engine 2 0) = some .pyNone
    ∧ allocOf (ServiceScope.fresh.resolve c6Engine 2 0) = some 1
    ∧ allocOf ((scopeOf (ServiceScope.fresh.resolve c6Engine 2 0)).resolve
        c6Engine 2 1) = some 2
    ∧ valOf (ServiceScope.fresh.resolve c6Engine 3 0) = some (.obj 7)
    ∧ valOf (ServiceScope.fresh.resolve c6Engine 3 5) = some (.obj 7) :=
  ⟨rfl, rfl, rfl, rfl, rfl⟩

/-- Claim C6 as amended: within one scope, a cached non-`None` instance is
returned unchanged on every later call; a first resolution through a scoped
factory whose result is not `None` caches that result, and subsequent calls
return the same cached instance (a `None` result is not cached and causes
re-invocation); two independently created scopes each invoke the factory
separately, so a factory that allocates a fresh instance per invocation —
here `fnFresh` — gives them distinct instances; and a key with no cached
instance and no scoped factory is delegated to the owning engine's
`resolve`. -/
theorem claim_C6 (e : Engine) (s : ServiceScope) (k : SvcKey) (a : Nat) :
    (∀ v, s.scoped_services k = some v → v ≠ .pyNone →
      s.resolve e k a = .ok (v, s, a))
    ∧ (∀ f, s.scoped_services.get k = .pyNone →
        e.services.scoped_factories.get k = f → f ≠ .pyNone →
        (f.call a).1 ≠ .pyNone →
        s.resolve e k a
          = .ok ((f.call a).1, ⟨s.scoped_services.set k (f.call a).1⟩,
              (f.call a).2)
        ∧ ∀ a2, (ServiceScope.mk
            (s.scoped_services.set k (f.call a).1)).resolve e k a2
          = .ok ((f.call a).1, ⟨s.scoped_services.set k (f.call a).1⟩, a2))
    ∧ (s.scoped_services.get k = .pyNone →
        e.services.scoped_factories.get k = .fnFresh →
        s.resolve e k a
          = .ok (.obj a, ⟨s.scoped_services.set k (.obj a)⟩, a + 1)
        ∧ PyVal.obj a ≠ PyVal.obj (a + 1))
    ∧ (s.scoped_services.get k = .pyNone →
        e.services.scoped_factories.get k = .pyNone →
        s.resolve e k a
          = match e.resolve k a with
            | .error er => .error er
            | .ok (v, a2) => .ok (v, s, a2)) := by
  refine ⟨fun v hv hne => ?_, fun f hmiss hf hfne hres => ⟨?_, fun a2 => ?_⟩,
    fun hmiss hf => ⟨?_, by simp⟩, fun hmiss hfnone => ?_⟩
  · simp [ServiceScope.resolve, SvcMap.get, hv, hne]
  · simp [ServiceScope.resolve, hmiss, hf, hfne]
  · have hset : (s.scoped_services.set k (f.call a).1).get k = (f.call a).1 := by
      simp [SvcMap.get, SvcMap.set]
    simp [ServiceScope.resolve, hset, hres]
  · simp [ServiceScope.resolve, hmiss, hf, PyVal.call]
  · simp [ServiceScope.resolve, hmiss, hfnone]

/-- A scope that already caches an instance under key 2, for the C6
witness. -/
def c6CacheScope : ServiceScope := ⟨SvcMap.empty.set 2 (.obj 1)⟩

/-- An engine whose scoped-factory table holds a constant non-`None` factory
under key 3, for the C6 witness. -/
def c6ConstEngine : Engine :=
  { Engine.fresh with
    services := { ServiceCollection.empty with
      scoped_factories := SvcMap.empty.set 3 (.fnConst (.obj 7)) } }

/-- An engine whose scoped-factory table holds a fresh-allocating factory
under key 4, for the C6 witness. -/
def c6FreshEngine : Engine :=
  { Engine.fresh with
    services := { ServiceCollection.empty with
      scoped_factories := SvcMap.empty.set 4 .fnFresh } }

/-- Witness for C6 at concrete inputs: a cached instance is returned as-is;
a caching first resolution through a constant non-`None` factory; a fresh
factory resolution; and delegation to the engine (which raises the
not-started error here). -/
theorem claim_C6_witness :
    c6CacheScope.resolve Engine.fresh 2 0
        = .ok (.obj 1, c6CacheScope, 0)
    ∧ ServiceScope.fresh.resolve c6ConstEngine 3 0
        = .ok (.obj 7, ⟨SvcMap.empty.set 3 (.obj 7)⟩, 0)
    ∧ ServiceScope.fresh.resolve c6FreshEngine 4 0
        = .ok (.obj 0, ⟨SvcMap.empty.set 4 (.obj 0)⟩, 1)
    ∧ ServiceScope.fresh.resolve Engine.fresh 6 0 = .error .notStarted := by
  refine ⟨?_, ?_, ?_, ?_⟩
  · exact (claim_C6 Engine.fresh c6CacheScope 2 0).1 (.obj 1) (by decide)
      (by decide)
  · exact ((claim_C6 c6ConstEngine ServiceScope.fresh 3 0).2.1
      (.fnConst (.obj 7)) rfl rfl (by decide) (by decide)).1
  · exact ((claim_C6 c6FreshEngine ServiceScope.fresh 4 0).2.2.1 rfl rfl).1
  · exact ((claim_C6 Engine.fresh ServiceScope.fresh 6 0).2.2.2 rfl rfl).trans
      rfl

/-- Claim C2, evaluated at the failing input: `configure_tasks` records the
configuration overrides in `_is_enabled` (TaskD, class-disabled, becomes
`is_enabled = true`; TaskE, class-enabled, becomes `is_enabled = false`),
but `execute_all_async` filters on the untouched class attribute `enabled`,
so the config-enabled TaskD does not run and the config-disabled TaskE does
— the configuration override the claim (and `configure`'s own code and
docstring) describes never affects execution. -/
theorem claim_C2 :
    ((((StartupTaskExecutor.empty.add_task
      { name := "TaskD", order := 10, enabled := false, isEnabled := false,
        cfg := ⟨none⟩, events := ["D"], raises := none }).add_task
      { name := "TaskE", order := 20, enabled := true, isEnabled := true,
        cfg := ⟨none⟩, events := ["E"], raises := none }).configure_tasks
      ⟨[("TaskD", ⟨some true⟩), ("TaskE", ⟨some false⟩)]⟩).tasks.map
        (fun p => p.2.isEnabled)) = [true, false]
    ∧ (((StartupTaskExecutor.empty.add_task
      { name := "TaskD", order := 10, enabled := false, isEnabled := false,
        cfg := ⟨none⟩, events := ["D"], raises := none }).add_task
      { name := "TaskE", order := 20, enabled := true, isEnabled := true,
        cfg := ⟨none⟩, events := ["E"], raises := none }).configure_tasks
      ⟨[("TaskD", ⟨some true⟩), ("TaskE", ⟨some false⟩)]⟩).execute_all_async []
      = (["E"], none) := by
  refine ⟨by decide, by decide⟩

/-- Concatenation of the event logs of a list of tasks, in order. -/
def eventsOf (l : List StartupTask) : List String :=
  (l.map (fun t => t.events)).flatten

@[simp]
theorem eventsOf_nil : eventsOf [] = [] := rfl

@[simp]
theorem eventsOf_cons (t : StartupTask) (ts : List StartupTask) :
    eventsOf (t :: ts) = t.events ++ eventsOf ts := rfl

theorem runTasks_ok (l : List StartupTask) (h : ∀ u ∈ l, u.raises = none) :
    ∀ log, runTasks l log = (log ++ eventsOf l, none) := by
  induction l with
  | nil => intro log; simp [runTasks]
  | cons t ts ih =>
    intro log
    have ht : t.raises = none := h t (List.mem_cons_self t ts)
    have hts : ∀ u ∈ ts, u.raises = none := fun u hu =>
      h u (List.mem_cons_of_mem t hu)
    simp [runTasks, ht, ih hts, List.append_assoc]

theorem runTasks_fail (pre : List StartupTask) (t : StartupTask)
    (post : List StartupTask) (err : Nat)
    (hpre : ∀ u ∈ pre, u.raises = none) (ht : t.raises = some err) :
    ∀ log, runTasks (pre ++ t :: post) log
      = (log ++ eventsOf pre ++ t.events, some err) := by
  induction pre with
  | nil => intro log; simp [runTasks, ht]
  | cons u us ih =>
    intro log
    have hu : u.raises = none := hpre u (List.mem_cons_self u us)
    have hus : ∀ w ∈ us, w.raises = none := fun w hw =>
      hpre w (List.mem_cons_of_mem u hw)
    simp [runTasks, hu, ih hus, List.append_assoc]

theorem insertByOrder_perm (t : StartupTask) (l : List StartupTask) :
    (insertByOrder t l).Perm (t :: l) := by
  induction l with
  | nil => exact List.Perm.refl _
  | cons u us ih =>
    by_cases h : u.order ≤ t.order
    · simp only [insertByOrder, h, if_pos]
      exact (ih.cons u).trans (List.Perm.swap t u us)
    · simp only [insertByOrder, h, if_neg, not_false_iff]
      exact List.Perm.refl _

theorem insertByOrder_mem (t x : StartupTask) (l : List StartupTask) :
    x ∈ insertByOrder t l ↔ x = t ∨ x ∈ l := by
  rw [(insertByOrder_perm t l).mem_iff]
  simp

theorem foldl_insert_perm (l : List StartupTask) :
    ∀ acc, (l.foldl (fun acc t => insertByOrder t acc) acc).Perm (acc ++ l) := by
  induction l with
  | nil => intro acc; simp
  | cons t ts ih =>
    intro acc
    have s1 : (ts.foldl (fun acc t => insertByOrder t acc)
        (insertByOrder t acc)).Perm (insertByOrder t acc ++ ts) :=
      ih (insertByOrder t acc)
    have s2 : (insertByOrder t acc ++ ts).Perm ((t :: acc) ++ ts) :=
      (insertByOrder_perm t acc).append_right ts
    have s3 : ((t :: acc) ++ ts).Perm (acc ++ t :: ts) :=
      List.perm_middle.symm
    exact (s1.trans s2).trans s3

theorem sortByOrder_perm (l : List StartupTask) : (sortByOrder l).Perm l := by
  simpa using foldl_insert_perm l []

theorem insertByOrder_pairwise (t : StartupTask) (l : List StartupTask)
    (h : l.Pairwise (fun u v => u.order ≤ v.order)) :
    (insertByOrder t l).Pairwise (fun u v => u.order ≤ v.order) := by
  induction l with
  | nil => simp [insertByOrder]
  | cons u us ih =>
    rw [List.pairwise_cons] at h
    by_cases hle : u.order ≤ t.order
    · simp only [insertByOrder, hle, if_pos]
      refine List.Pairwise.cons (fun x hx => ?_) (ih h.2)
      rcases (insertByOrder_mem t x us).1 hx with hxt | hxu
      · exact hxt ▸ hle
      · exact h.1 x hxu
    · simp only [insertByOrder, hle, if_neg, not_false_iff]
      refine List.Pairwise.cons (fun x hx => ?_) (List.Pairwise.cons h.1 h.2)
      rcases List.mem_cons.1 hx with hxu | hxus
      · exact hxu ▸ le_of_not_le hle
      · exact le_trans (le_of_not_le hle) (h.1 x hxus)

theorem foldl_insert_pairwise (l : List StartupTask) :
    ∀ acc, acc.Pairwise (fun u v => u.order ≤ v.order) →
      (l.foldl (fun acc t => insertByOrder t acc) acc).Pairwise
        (fun u v => u.order ≤ v.order) := by
  induction l with
  | nil => intro acc h; exact h
  | cons t ts ih =>
    intro acc h
    exact ih (insertByOrder t acc) (insertByOrder_pairwise t acc h)

theorem sortByOrder_pairwise (l : List StartupTask) :
    (sortByOrder l).Pairwise (fun u v => u.order ≤ v.order) :=
  foldl_insert_pairwise l [] (List.Pairwise.nil)

theorem insertByOrder_filter (t : StartupTask) (l : List StartupTask)
    (o : Int) (h : l.Pairwise (fun u v => u.order ≤ v.order)) :
    (insertByOrder t l).filter (fun u => u.order == o)
      = l.filter (fun u => u.order == o)
        ++ (if t.order == o then [t] else []) := by
  induction l with
  | nil => cases hto : (t.order == o) <;> simp [insertByOrder,
      List.filter_cons, hto]
  | cons u us ih =>
    rw [List.pairwise_cons] at h
    by_cases hle : u.order ≤ t.order
    · simp only [insertByOrder, hle, if_pos, List.filter_cons]
      rw [ih h.2]
      by_cases huo : (u.order == o) = true
      · simp [huo]
      · simp [huo]
    · simp only [insertByOrder, hle, if_neg, not_false_iff, List.filter_cons]
      by_cases hto : (t.order == o) = true
      · have hlt : t.order < u.order := lt_of_not_le hle
        have hoe : t.order = o := by exact_mod_cast beq_iff_eq.1 hto
        have hnil : (u :: us).filter (fun u => u.order == o) = [] := by
          rw [List.filter_eq_nil_iff]
          intro x hx
          have hge : u.order ≤ x.order := by
            rcases List.mem_cons.1 hx with hxu | hxus
            · exact hxu ▸ le_refl _
            · exact h.1 x hxus
          have : o < x.order := hoe ▸ lt_of_lt_of_le hlt hge
          simp only [beq_iff_eq]
          omega
        rw [List.filter_cons] at hnil
        rw [if_pos hto, if_pos hto, hnil]
        rfl
      · simp [hto, List.filter_cons]

theorem foldl_insert_filter (l : List StartupTask) (o : Int) :
    ∀ acc, acc.Pairwise (fun u v => u.order ≤ v.order) →
      (l.foldl (fun acc t => insertByOrder t acc) acc).filter
          (fun u => u.order == o)
        = acc.filter (fun u => u.order == o)
          ++ l.filter (fun u => u.order == o) := by
  induction l with
  | nil => intro acc _; simp
  | cons t ts ih =>
    intro acc h
    have h2 := ih (insertByOrder t acc) (insertByOrder_pairwise t acc h)
    calc ((t :: ts).foldl (fun acc t => insertByOrder t acc) acc).filter
          (fun u => u.order == o)
        = (insertByOrder t acc).filter (fun u => u.order == o)
            ++ ts.filter (fun u => u.order == o) := h2
      _ = acc.filter (fun u => u.order == o)
            ++ ((if t.order == o then [t] else [])
                ++ ts.filter (fun u => u.order == o)) := by
          rw [insertByOrder_filter t acc o h, List.append_assoc]
      _ = acc.filter (fun u => u.order == o)
            ++ (t :: ts).filter (fun u => u.order == o) := by
          rw [List.filter_cons]
          by_cases hto : (t.order == o) = true
          · simp [hto]
          · simp [hto]

theorem sortByOrder_filter (l : List StartupTask) (o : Int) :
    (sortByOrder l).filter (fun u => u.order == o)
      = l.filter (fun u => u.order == o) := by
  simpa using foldl_insert_filter l o [] (List.Pairwise.nil)

/-- Claim C3: `execute_all_async()` executes exactly the enabled tasks (the
filter reads the class attribute `task.enabled`), stably sorted by `order`
ascending with ties broken by the position of the task in the `_tasks` dict
(its insertion order); each task's `execute()` is awaited to completion
before the next begins, so the shared log is the concatenation of the
per-task event lists in sorted order — in particular every event of an
order-10 task precedes every event of an order-20 task, regardless of which
was added first. -/
theorem claim_C3 (ex : StartupTaskExecutor) (log : List String)
    (hall : ∀ u ∈ ex.sortedEnabled, u.raises = none) :
    ex.execute_all_async log = (log ++ eventsOf ex.sortedEnabled, none)
    ∧ ex.sortedEnabled.Perm
        ((ex.tasks.map Prod.snd).filter (fun t => t.enabled))
    ∧ ex.sortedEnabled.Pairwise (fun u v => u.order ≤ v.order)
    ∧ ∀ o : Int, ex.sortedEnabled.filter (fun u => u.order == o)
        = ((ex.tasks.map Prod.snd).filter (fun t => t.enabled)).filter
            (fun u => u.order == o) :=
  ⟨runTasks_ok ex.sortedEnabled hall log,
    sortByOrder_perm _,
    sortByOrder_pairwise _,
    fun o => sortByOrder_filter _ o⟩

/-- An order-10 task, for the C3 witness. -/
def c3TaskA : StartupTask :=
  { name := "A", order := 10, enabled := true, isEnabled := true,
    cfg := ⟨none⟩, events := ["A"], raises := none }

/-- An order-20 task, for the C3 witness. -/
def c3TaskB : StartupTask :=
  { name := "B", order := 20, enabled := true, isEnabled := true,
    cfg := ⟨none⟩, events := ["B"], raises := none }

/-- The C3 witness executor: the order-20 task added before the order-10
task. -/
def c3Exec : StartupTaskExecutor :=
  (StartupTaskExecutor.empty.add_task c3TaskB).add_task c3TaskA

/-- Witness for C3: with orders 10 and 20 added in reverse order, the
order-10 task's whole event list precedes the order-20 task's. -/
theorem claim_C3_witness :
    c3Exec.execute_all_async [] = (["A", "B"], none) :=
  (claim_C3 c3Exec [] (by decide)).1

theorem start_ok (e : Engine) (core : List (SvcKey × PyVal))
    (discovered : List StartupTask) (config : Option Config) (a : Nat)
    (he : e.started = false)
    (hall : ∀ u ∈ (buildExecutor discovered config).sortedEnabled,
      u.raises = none) :
    (e.start core discovered config a).2.2 = none
    ∧ (e.start core discovered config a).1.started = true := by
  have h1 : (buildExecutor discovered config).execute_all_async e.trace
      = (e.trace ++ eventsOf (buildExecutor discovered config).sortedEnabled,
          none) :=
    runTasks_ok _ hall e.trace
  constructor <;> simp [Engine.start, he, h1]

theorem start_fail (e : Engine) (core : List (SvcKey × PyVal))
    (discovered : List StartupTask) (config : Option Config) (a : Nat)
    (pre post : List StartupTask) (t : StartupTask) (err : Nat)
    (he : e.started = false)
    (hsort : (buildExecutor discovered config).sortedEnabled
      = pre ++ t :: post)
    (hpre : ∀ u ∈ pre, u.raises = none) (ht : t.raises = some err) :
    (e.start core discovered config a).2.2 = some err
    ∧ (e.start core discovered config a).1.started = false := by
  have h1 : (buildExecutor discovered config).execute_all_async e.trace
      = (e.trace ++ eventsOf pre ++ t.events, some err) := by
    show runTasks (buildExecutor discovered config).sortedEnabled e.trace = _
    rw [hsort]
    exact runTasks_fail pre t post err hpre ht e.trace
  constructor <;> simp [Engine.start, he, h1]

/-- Claim C1: when a startup task's `execute()` raises during
`execute_all_async()`, the error propagates at once and no later task's
events appear in the log; `start()` re-raises the same error and leaves the
started flag false, so a subsequent `start()` call runs again and succeeds
whenever its pipeline's tasks all succeed. -/
theorem claim_C1 (e : Engine) (core : List (SvcKey × PyVal))
    (discovered : List StartupTask) (config : Option Config) (a : Nat)
    (pre post : List StartupTask) (t : StartupTask) (err : Nat)
    (he : e.started = false)
    (hsort : (buildExecutor discovered config).sortedEnabled
      = pre ++ t :: post)
    (hpre : ∀ u ∈ pre, u.raises = none) (ht : t.raises = some err) :
    (buildExecutor discovered config).execute_all_async e.trace
      = (e.trace ++ eventsOf pre ++ t.events, some err)
    ∧ (e.start core discovered config a).2.2 = some err
    ∧ (e.start core discovered config a).1.started = false
    ∧ ∀ (core2 : List (SvcKey × PyVal)) (discovered2 : List StartupTask)
        (config2 : Option Config) (a2 : Nat),
        (∀ u ∈ (buildExecutor discovered2 config2).sortedEnabled,
          u.raises = none) →
        ((e.start core discovered config a).1.start core2 discovered2
          config2 a2).2.2 = none
        ∧ ((e.start core discovered config a).1.start core2 discovered2
            config2 a2).1.started = true := by
  have hfail := start_fail e core discovered config a pre post t err he
    hsort hpre ht
  refine ⟨?_, hfail.1, hfail.2, fun core2 discovered2 config2 a2 hall =>
    start_ok _ core2 discovered2 config2 a2 hfail.2 hall⟩
  show runTasks (buildExecutor discovered config).sortedEnabled e.trace = _
  rw [hsort]
  exact runTasks_fail pre t post err hpre ht e.trace

/-- A succeeding order-10 task, for the C1 witness. -/
def c1Good : StartupTask :=
  { name := "G", order := 10, enabled := true, isEnabled := true,
    cfg := ⟨none⟩, events := ["g"], raises := none }

/-- A failing order-20 task, for the C1 witness. -/
def c1Bad : StartupTask :=
  { name := "B", order := 20, enabled := true, isEnabled := true,
    cfg := ⟨none⟩, events := ["b"], raises := some 3 }

/-- Witness for C1 at a concrete pipeline: the failing task aborts `start`,
which re-raises error 3 and leaves the engine not started; a retry whose
pipeline has only the succeeding task then starts the engine. -/
theorem claim_C1_witness :
    (Engine.fresh.start [] [c1Good, c1Bad] none 0).2.2 = some 3
    ∧ (Engine.fresh.start [] [c1Good, c1Bad] none 0).1.started = false
    ∧ ((Engine.fresh.start [] [c1Good, c1Bad] none 0).1.start []
        [c1Good] none 0).2.2 = none
    ∧ ((Engine.fresh.start [] [c1Good, c1Bad] none 0).1.start []
        [c1Good] none 0).1.started = true := by
  have h := claim_C1 Engine.fresh [] [c1Good, c1Bad] none 0 [c1Good] []
    c1Bad 3 rfl (by decide) (by decide) rfl
  exact ⟨h.2.1, h.2.2.1, (h.2.2.2 [] [c1Good] none 0 (by decide)).1,
    (h.2.2.2 [] [c1Good] none 0 (by decide)).2⟩

/-- Scan invariant for `find_classes_of_type`: every result entry's identity
is in the discovered set, and result identities are pairwise distinct. -/
def FcInv (st : List Nat × List Cls) : Prop :=
  (∀ c ∈ st.2, c.cid ∈ st.1) ∧ st.2.Pairwise (fun c d => c.cid ≠ d.cid)

theorem fcInvExtend {d : List Nat} {r : List Cls} (n : Nat)
    (h : FcInv (d, r)) : FcInv (n :: d, r) :=
  ⟨fun c hc => List.mem_cons_of_mem n (h.1 c hc), h.2⟩

theorem fcInvPush {d : List Nat} {r : List Cls} (c : Cls)
    (h : FcInv (d, r)) (hn : c.cid ∉ d) : FcInv (c.cid :: d, r ++ [c]) := by
  constructor
  · intro x hx
    rcases List.mem_append.1 hx with hx1 | hx2
    · exact List.mem_cons_of_mem _ (h.1 x hx1)
    · rcases List.mem_singleton.1 hx2 with rfl
      exact List.mem_cons_self _ _
  · rw [List.pairwise_append]
    refine ⟨h.2, List.pairwise_singleton _ _, fun x hx y hy => ?_⟩
    rcases List.mem_singleton.1 hy with rfl
    intro hxy
    exact hn (hxy ▸ h.1 x hx)

theorem fcStep_inv (ign : List String) (oc : Bool)
    (st : List Nat × List Cls) (c : Cls) (h : FcInv st) :
    FcInv (fcStep ign oc st c) := by
  obtain ⟨d, r⟩ := st
  by_cases hmem : c.cid ∈ d
  · simpa [fcStep, hmem] using h
  · simp only [fcStep, hmem, if_neg, not_false_iff]
    by_cases hig : ignoredCls ign c = true
    · simpa [hig] using fcInvExtend c.cid h
    · simp only [hig]
      cases hac : c.assignCheck with
      | error e => simpa using fcInvExtend c.cid h
      | ok b =>
        by_cases hb : b = true
        · by_cases habs : (oc && (c.isAbstract || c.abcBase)) = true
          · simpa [hb, habs] using fcInvExtend c.cid h
          · simpa [hb, habs] using fcInvPush c h hmem
        · simpa [hb] using fcInvExtend c.cid h

theorem foldl_fcStep_inv (ign : List String) (oc : Bool) (cs : List Cls) :
    ∀ st, FcInv st → FcInv (cs.foldl (fcStep ign oc) st) := by
  induction cs with
  | nil => intro st h; exact h
  | cons c cs ih => intro st h; exact ih _ (fcStep_inv ign oc st c h)

theorem fcModule_inv (ign : List String) (oc : Bool)
    (st : List Nat × List Cls) (m : PyModule) (h : FcInv st) :
    FcInv (fcModule ign oc st m) := by
  unfold fcModule
  cases hm : m.getmembers with
  | error e => exact h
  | ok cs => exact foldl_fcStep_inv ign oc cs st h

theorem foldl_fcModule_inv (ign : List String) (oc : Bool)
    (mods : List PyModule) : ∀ st, FcInv st →
      FcInv (mods.foldl (fcModule ign oc) st) := by
  induction mods with
  | nil => intro st h; exact h
  | cons m mods ih => intro st h; exact ih _ (fcModule_inv ign oc st m h)

/-- Scan invariant for `find_generic_implementations`. -/
def FgInv (st : List Nat × List (Cls × List Nat)) : Prop :=
  (∀ p ∈ st.2, p.1.cid ∈ st.1)
  ∧ st.2.Pairwise (fun p q => p.1.cid ≠ q.1.cid)

theorem fgInvExtend {d : List Nat} {r : List (Cls × List Nat)} (n : Nat)
    (h : FgInv (d, r)) : FgInv (n :: d, r) :=
  ⟨fun p hp => List.mem_cons_of_mem n (h.1 p hp), h.2⟩

theorem fgInvPush {d : List Nat} {r : List (Cls × List Nat)} (c : Cls)
    (args : List Nat) (h : FgInv (d, r)) (hn : c.cid ∉ d) :
    FgInv (c.cid :: d, r ++ [(c, args)]) := by
  constructor
  · intro x hx
    rcases List.mem_append.1 hx with hx1 | hx2
    · exact List.mem_cons_of_mem _ (h.1 x hx1)
    · rcases List.mem_singleton.1 hx2 with rfl
      exact List.mem_cons_self _ _
  · rw [List.pairwise_append]
    refine ⟨h.2, List.pairwise_singleton _ _, fun x hx y hy => ?_⟩
    rcases List.mem_singleton.1 hy with rfl
    intro hxy
    exact hn (hxy ▸ h.1 x hx)

theorem fgStep_inv (ign : List String) (g : Nat)
    (argTypes : Option (List Nat)) (st : List Nat × List (Cls × List Nat))
    (c : Cls) (h : FgInv st) : FgInv (fgStep ign g argTypes st c) := by
  obtain ⟨d, r⟩ := st
  by_cases hmem : c.cid ∈ d
  · simpa [fgStep, hmem] using h
  · simp only [fgStep, hmem, if_neg, not_false_iff]
    by_cases hig : ignoredCls ign c = true
    · simpa [hig] using fgInvExtend c.cid h
    · simp only [hig]
      cases hob : c.origBases with
      | none => simpa using fgInvExtend c.cid h
      | some bases =>
        cases hsb : scanBases g argTypes bases with
        | none => simpa [hsb] using fgInvExtend c.cid h
        | some args => simpa [hsb] using fgInvPush c args h hmem

theorem foldl_fgStep_inv (ign : List String) (g : Nat)
    (argTypes : Option (List Nat)) (cs : List Cls) :
    ∀ st, FgInv st → FgInv (cs.foldl (fgStep ign g argTypes) st) := by
  induction cs with
  | nil => intro st h; exact h
  | cons c cs ih => intro st h; exact ih _ (fgStep_inv ign g argTypes st c h)

theorem fgModule_inv (ign : List String) (g : Nat)
    (argTypes : Option (List Nat)) (st : List Nat × List (Cls × List Nat))
    (m : PyModule) (h : FgInv st) : FgInv (fgModule ign g argTypes st m) := by
  unfold fgModule
  cases hm : m.getmembers with
  | error e => exact h
  | ok cs => exact foldl_fgStep_inv ign g argTypes cs st h

theorem foldl_fgModule_inv (ign : List String) (g : Nat)
    (argTypes : Option (List Nat)) (mods : List PyModule) :
    ∀ st, FgInv st → FgInv (mods.foldl (fgModule ign g argTypes) st) := by
  induction mods with
  | nil => intro st h; exact h
  | cons m mods ih =>
    intro st h
    exact ih _ (fgModule_inv ign g argTypes st m h)

/-- Claim C7: for every state of the module index — including the same
module or class visible under two module names — `find_classes_of_type`
returns each class at most once and `find_generic_implementations` reports
each implementation at most once per discovery pass, with duplicates
detected by class identity (`cid`), not by name. -/
theorem claim_C7 (tf : TypeFinder) (oc : Bool) (g : Nat)
    (argTypes : Option (List Nat)) :
    (tf.find_classes_of_type oc).Pairwise (fun c d => c.cid ≠ d.cid)
    ∧ (tf.find_generic_implementations g argTypes).Pairwise
        (fun p q => p.1.cid ≠ q.1.cid) :=
  ⟨(foldl_fcModule_inv tf.ignore_modules oc tf.loaded_modules ([], [])
      ⟨fun c hc => absurd hc (List.not_mem_nil c), List.Pairwise.nil⟩).2,
    (foldl_fgModule_inv tf.ignore_modules g argTypes tf.loaded_modules
      ([], [])
      ⟨fun p hp => absurd hp (List.not_mem_nil p), List.Pairwise.nil⟩).2⟩

theorem fcModule_raising (ign : List String) (oc : Bool)
    (st : List Nat × List Cls) (m : PyModule)
    (hm : m.introspectRaises = true) : fcModule ign oc st m = st := by
  simp [fcModule, PyModule.getmembers, hm]

theorem foldl_fcModule_filter (ign : List String) (oc : Bool)
    (mods : List PyModule) : ∀ st,
      mods.foldl (fcModule ign oc) st
        = (mods.filter (fun m => !m.introspectRaises)).foldl
            (fcModule ign oc) st := by
  induction mods with
  | nil => intro st; rfl
  | cons m mods ih =>
    intro st
    by_cases hm : m.introspectRaises = true
    · have hf : (m :: mods).filter (fun m => !m.introspectRaises)
          = mods.filter (fun m => !m.introspectRaises) := by
        simp [List.filter_cons, hm]
      rw [List.foldl_cons, fcModule_raising ign oc st m hm, hf, ih]
    · have hf : (m :: mods).filter (fun m => !m.introspectRaises)
          = m :: mods.filter (fun m => !m.introspectRaises) := by
        simp [List.filter_cons, hm]
      rw [List.foldl_cons, hf, List.foldl_cons, ih]

theorem fgModule_raising (ign : List String) (g : Nat)
    (argTypes : Option (List Nat)) (st : List Nat × List (Cls × List Nat))
    (m : PyModule) (hm : m.introspectRaises = true) :
    fgModule ign g argTypes st m = st := by
  simp [fgModule, PyModule.getmembers, hm]

theorem foldl_fgModule_filter (ign : List String) (g : Nat)
    (argTypes : Option (List Nat)) (mods : List PyModule) : ∀ st,
      mods.foldl (fgModule ign g argTypes) st
        = (mods.filter (fun m => !m.introspectRaises)).foldl
            (fgModule ign g argTypes) st := by
  induction mods with
  | nil => intro st; rfl
  | cons m mods ih =>
    intro st
    by_cases hm : m.introspectRaises = true
    · have hf : (m :: mods).filter (fun m => !m.introspectRaises)
          = mods.filter (fun m => !m.introspectRaises) := by
        simp [List.filter_cons, hm]
      rw [List.foldl_cons, fgModule_raising ign g argTypes st m hm, hf, ih]
    · have hf : (m :: mods).filter (fun m => !m.introspectRaises)
          = m :: mods.filter (fun m => !m.introspectRaises) := by
        simp [List.filter_cons, hm]
      rw [List.foldl_cons, hf, List.foldl_cons, ih]

/-- Simulation relation between the class scan over the full index and the
scan over the index with the assignability-raising candidates removed: the
results agree, and the filtered run's discovered set is exactly the
non-raising part of the full run's (`F` gives each class identity's
raising behaviour). -/
def FcRel (F : Nat → Bool) (st1 st2 : List Nat × List Cls) : Prop :=
  st1.2 = st2.2 ∧ ∀ n, n ∈ st2.1 ↔ (n ∈ st1.1 ∧ F n = false)

theorem rel_disc_cons {F : Nat → Bool} {d1 d2 : List Nat} {m : Nat}
    (hFc : F m = false) (hiff : ∀ n, n ∈ d2 ↔ (n ∈ d1 ∧ F n = false)) :
    ∀ n, n ∈ m :: d2 ↔ (n ∈ m :: d1 ∧ F n = false) := by
  intro n
  by_cases hn : n = m
  · subst hn
    simp [hFc]
  · simp [List.mem_cons, hn, hiff n]

theorem fcStep_rel_raising {F : Nat → Bool} (ign : List String) (oc : Bool)
    {st1 st2 : List Nat × List Cls} (c : Cls) (hc : c.assignRaises = true)
    (hFc : F c.cid = true) (h : FcRel F st1 st2) :
    FcRel F (fcStep ign oc st1 c) st2 := by
  obtain ⟨d1, r1⟩ := st1
  obtain ⟨d2, r2⟩ := st2
  by_cases hmem : c.cid ∈ d1
  · simpa [fcStep, hmem] using h
  · have hres : fcStep ign oc (d1, r1) c = (c.cid :: d1, r1) := by
      by_cases hig : ignoredCls ign c = true
      · simp [fcStep, hmem, hig]
      · simp [fcStep, hmem, hig, Cls.assignCheck, hc]
    rw [hres]
    refine ⟨h.1, fun n => ?_⟩
    rw [h.2 n]
    constructor
    · rintro ⟨hn1, hn2⟩
      exact ⟨List.mem_cons_of_mem _ hn1, hn2⟩
    · rintro ⟨hn1, hn2⟩
      rcases List.mem_cons.1 hn1 with rfl | hn1
      · rw [hFc] at hn2
        cases hn2
      · exact ⟨hn1, hn2⟩

theorem fcStep_rel_ok {F : Nat → Bool} (ign : List String) (oc : Bool)
    {st1 st2 : List Nat × List Cls} (c : Cls) (hc : c.assignRaises = false)
    (hFc : F c.cid = false) (h : FcRel F st1 st2) :
    FcRel F (fcStep ign oc st1 c) (fcStep ign oc st2 c) := by
  obtain ⟨d1, r1⟩ := st1
  obtain ⟨d2, r2⟩ := st2
  have hr : r1 = r2 := h.1
  have hiff := h.2
  by_cases hmem : c.cid ∈ d1
  · have hmem2 : c.cid ∈ d2 := (hiff c.cid).2 ⟨hmem, hFc⟩
    simpa [fcStep, hmem, hmem2] using h
  · have hmem2 : c.cid ∉ d2 := fun hm2 => hmem ((hiff c.cid).1 hm2).1
    subst hr
    by_cases hig : ignoredCls ign c = true
    · simp only [fcStep, hmem, hmem2, hig, if_neg, not_false_iff, if_pos,
        if_true]
      exact ⟨rfl, rel_disc_cons hFc hiff⟩
    · simp only [fcStep, hmem, hmem2, hig, if_neg, not_false_iff,
        Cls.assignCheck, hc, Bool.false_eq_true, if_false]
      by_cases hb : c.assignable = true
      · by_cases habs : (oc && (c.isAbstract || c.abcBase)) = true
        · simp only [hb, habs, if_pos, if_true]
          exact ⟨rfl, rel_disc_cons hFc hiff⟩
        · simp only [hb, habs, if_true, if_neg, not_false_iff]
          exact ⟨rfl, rel_disc_cons hFc hiff⟩
      · simp only [hb, if_neg, not_false_iff]
        exact ⟨rfl, rel_disc_cons hFc hiff⟩

theorem foldl_fcStep_rel {F : Nat → Bool} (ign : List String) (oc : Bool)
    (cs : List Cls) (hcs : ∀ c ∈ cs, c.assignRaises = F c.cid) :
    ∀ st1 st2, FcRel F st1 st2 →
      FcRel F (cs.foldl (fcStep ign oc) st1)
        ((cs.filter (fun c => !c.assignRaises)).foldl (fcStep ign oc) st2) := by
  induction cs with
  | nil => intro st1 st2 h; exact h
  | cons c cs ih =>
    intro st1 st2 h
    have hc : c.assignRaises = F c.cid := hcs c (List.mem_cons_self c cs)
    have hcs2 : ∀ x ∈ cs, x.assignRaises = F x.cid := fun x hx =>
      hcs x (List.mem_cons_of_mem c hx)
    by_cases hra : c.assignRaises = true
    · have hFc : F c.cid = true := hc.symm.trans hra
      have hf : (c :: cs).filter (fun c => !c.assignRaises)
          = cs.filter (fun c => !c.assignRaises) := by
        simp [List.filter_cons, hra]
      rw [hf, List.foldl_cons]
      exact ih hcs2 _ st2 (fcStep_rel_raising ign oc c hra hFc h)
    · have hra2 : c.assignRaises = false := by
        revert hra
        cases c.assignRaises <;> simp
      have hFc : F c.cid = false := hc.symm.trans hra2
      have hf : (c :: cs).filter (fun c => !c.assignRaises)
          = c :: cs.filter (fun c => !c.assignRaises) := by
        simp [List.filter_cons, hra2]
      rw [hf, List.foldl_cons, List.foldl_cons]
      exact ih hcs2 _ _ (fcStep_rel_ok ign oc c hra2 hFc h)

theorem fcModule_rel {F : Nat → Bool} (ign : List String) (oc : Bool)
    {st1 st2 : List Nat × List Cls} (m : PyModule)
    (hm : ∀ c ∈ m.members, c.assignRaises = F c.cid) (h : FcRel F st1 st2) :
    FcRel F (fcModule ign oc st1 m)
      (fcModule ign oc st2
        { m with members := m.members.filter (fun c => !c.assignRaises) }) := by
  by_cases hir : m.introspectRaises = true
  · simpa [fcModule, PyModule.getmembers, hir] using h
  · simpa [fcModule, PyModule.getmembers, hir] using
      foldl_fcStep_rel ign oc m.members hm st1 st2 h

theorem foldl_fcModule_rel {F : Nat → Bool} (ign : List String) (oc : Bool)
    (mods : List PyModule)
    (hmods : ∀ m ∈ mods, ∀ c ∈ m.members, c.assignRaises = F c.cid) :
    ∀ st1 st2, FcRel F st1 st2 →
      FcRel F (mods.foldl (fcModule ign oc) st1)
        ((mods.map (fun m =>
          { m with members := m.members.filter (fun c => !c.assignRaises)
            })).foldl (fcModule ign oc) st2) := by
  induction mods with
  | nil => intro st1 st2 h; exact h
  | cons m mods ih =>
    intro st1 st2 h
    have hm := hmods m (List.mem_cons_self m mods)
    have hmods2 : ∀ x ∈ mods, ∀ c ∈ x.members, c.assignRaises = F c.cid :=
      fun x hx => hmods x (List.mem_cons_of_mem m hx)
    rw [List.map_cons, List.foldl_cons, List.foldl_cons]
    exact ih hmods2 _ _ (fcModule_rel ign oc m hm h)

/-- Claim C8: an exception while introspecting one module skips only that
module — the scan result over the full index equals the result over the
index restricted to the non-raising modules, for both discovery functions —
and an exception while checking assignability of one candidate skips only
that candidate (the result equals the scan with the raising candidates
removed; `F` fixes each class identity's raising behaviour, as one class
object has one behaviour).  Both scans are total: no such exception reaches
the caller. -/
theorem claim_C8 (tf : TypeFinder) (oc : Bool) (g : Nat)
    (argTypes : Option (List Nat)) (F : Nat → Bool)
    (hF : ∀ m ∈ tf.loaded_modules, ∀ c ∈ m.members,
      c.assignRaises = F c.cid) :
    tf.find_classes_of_type oc
      = (TypeFinder.mk tf.ignore_modules
          (tf.loaded_modules.filter
            (fun m => !m.introspectRaises))).find_classes_of_type oc
    ∧ tf.find_generic_implementations g argTypes
      = (TypeFinder.mk tf.ignore_modules
          (tf.loaded_modules.filter
            (fun m => !m.introspectRaises))).find_generic_implementations
          g argTypes
    ∧ tf.find_classes_of_type oc
      = (TypeFinder.mk tf.ignore_modules
          (tf.loaded_modules.map (fun m =>
            { m with members := m.members.filter (fun c => !c.assignRaises)
              }))).find_classes_of_type oc := by
  refine ⟨?_, ?_, ?_⟩
  · show (tf.loaded_modules.foldl (fcModule tf.ignore_modules oc)
        ([], [])).2 = _
    rw [foldl_fcModule_filter]
    rfl
  · show (tf.loaded_modules.foldl
        (fgModule tf.ignore_modules g argTypes) ([], [])).2 = _
    rw [foldl_fgModule_filter]
    rfl
  · have hrel := foldl_fcModule_rel tf.ignore_modules oc tf.loaded_modules
      hF ([], []) ([], []) ⟨rfl, fun n => by simp⟩
    exact hrel.1

/-- Witness for C8 at a concrete index: one healthy module, one module whose
introspection raises, and one candidate whose assignability check raises. -/
theorem claim_C8_witness :
    (TypeFinder.mk []
      [⟨"good", false,
        [⟨1, "app.good", true, false, false, false, none⟩,
          ⟨2, "app.bad", true, true, false, false, none⟩]⟩,
        ⟨"broken", true, [⟨3, "app.other", true, false, false, false,
          none⟩]⟩]).find_classes_of_type true
      = (TypeFinder.mk []
          [⟨"good", false,
            [⟨1, "app.good", true, false, false, false, none⟩,
              ⟨2, "app.bad", true, true, false, false, none⟩]⟩]).find_classes_of_type
          true
    ∧ (TypeFinder.mk []
      [⟨"good", false,
        [⟨1, "app.good", true, false, false, false, none⟩,
          ⟨2, "app.bad", true, true, false, false, none⟩]⟩,
        ⟨"broken", true, [⟨3, "app.other", true, false, false, false,
          none⟩]⟩]).find_classes_of_type true
      = (TypeFinder.mk []
          [⟨"good", false,
            [⟨1, "app.good", true, false, false, false, none⟩]⟩,
            ⟨"broken", true, [⟨3, "app.other", true, false, false, false,
              none⟩]⟩]).find_classes_of_type true := by
  have h := claim_C8 (TypeFinder.mk []
    [⟨"good", false,
      [⟨1, "app.good", true, false, false, false, none⟩,
        ⟨2, "app.bad", true, true, false, false, none⟩]⟩,
      ⟨"broken", true, [⟨3, "app.other", true, false, false, false,
        none⟩]⟩]) true 0 none (fun n => n == 2) (by decide)
  exact ⟨h.1, h.2.2⟩

end ObcIngestion
